import Mathlib

/-
Verification of the genome/chromosome library in `src/genome.ts`.

Shallow embedding conventions:
- A JS 32-bit unsigned integer ("gene") is a `ℕ`; every store into a
  `Uint32Array` reduces the stored value modulo `2^32 = 4294967296`
  (JS `ToUint32`), and out-of-range writes are no-ops (as for typed arrays).
- JS `Math.random()` draws are modelled as a list of rationals consumed from
  the head (`headD 0` when exhausted); every function threads the remaining
  stream through its result.
- JS numbers (probabilities, diversity ratios) are modelled as `ℚ`.
  The one place a JS division can produce `NaN` (denominator 0) is modelled
  by returning `Option ℚ`, with `none` standing for `NaN`.
- In-place mutation is modelled by state passing: a method mutating `this`
  returns the updated value.  A separate heap model (slot-per-chromosome,
  suffix `H`) makes the aliasing structure explicit for the frame claims.
-/

/-- The stream of `Math.random()` results: rationals intended to lie in
`[0, 1)`, consumed from the head of the list. -/
abbrev RandStream := List ℚ

/-- JS `ToUint32` applied after a bitwise XOR: both operands are reduced to
their low 32 bits (the `ToInt32` conversions performed by `^` change only
how the 32 bits are read, not the resulting bit pattern). -/
def xor32 (a b : ℕ) : ℕ := (a % 4294967296) ^^^ (b % 4294967296)

/-- JS `~x` followed by the `ToUint32` conversion of a `Uint32Array` store:
the 32-bit complement `4294967295 - (x mod 2^32)`. -/
def inv32 (a : ℕ) : ℕ := 4294967295 - a % 4294967296

/-- JS `ToInt32`: the value reinterpreted as a signed 32-bit integer. -/
def toInt32 (a : ℕ) : ℤ :=
  if a % 4294967296 < 2147483648 then ((a % 4294967296 : ℕ) : ℤ)
  else ((a % 4294967296 : ℕ) : ℤ) - 4294967296

/-- The inner loop of `countOnes` from the source: `k` iterations of
testing the lowest bit (`n & 1`) and arithmetically shifting right
(`n >> 1`).  On two's-complement integers the arithmetic shift by one is
floor division by 2, which for the positive divisor 2 agrees with Euclidean
division (the `/` and `%` of `ℤ`), and `n & 1` is the Euclidean remainder
mod 2. -/
def countBitsLoop : ℤ → ℕ → ℕ
  | _, 0 => 0
  | n, k + 1 => (if n % 2 = 1 then 1 else 0) + countBitsLoop (n / 2) k

/-- Mathematical population count of the low `k` bits of a natural number,
used as the specification that `countBitsLoop` is measured against. -/
def popcountN : ℕ → ℕ → ℕ
  | _, 0 => 0
  | v, k + 1 => v % 2 + popcountN (v / 2) k

/-- `countOnes` from the source: total number of 1 bits over an array,
each element examined by 32 test-and-shift iterations. -/
def countOnes (arr : List ℕ) : ℕ :=
  (arr.map (fun v => countBitsLoop (toInt32 v) 32)).sum

/-- A `Chromosome` is its `genes` array of 32-bit unsigned integers. -/
structure Chromosome where
  genes : List ℕ
deriving DecidableEq

/-- All genes lie in the `Uint32Array` range (true of every real heap state). -/
def Chromosome.valid (c : Chromosome) : Prop := ∀ g ∈ c.genes, g < 4294967296

instance (c : Chromosome) : Decidable c.valid := List.decidableBAll _ c.genes

/-- `Chromosome.mutation_probability`, the class-level default. -/
def mutation_probability : ℚ := 1 / 100

/-- `Chromosome.addition_probability`, the class-level default. -/
def addition_probability : ℚ := 1 / 1000

/-- `copy()`: an independent element-wise duplicate.  At the value level the
copy has the same genes; the heap model below accounts for the fresh
backing array. -/
def Chromosome.copy (c : Chromosome) : Chromosome := ⟨c.genes⟩

/-- Random gene initialisation used by the `Chromosome` constructor:
each gene is `Math.floor(Math.random() * 4294967295)`. -/
def randGenes : ℕ → RandStream → List ℕ × RandStream
  | 0, s => ([], s)
  | n + 1, s =>
    let g := (⌊s.headD 0 * 4294967295⌋).toNat % 4294967296
    let rest := randGenes n s.tail
    (g :: rest.1, rest.2)

/-- `new Chromosome(length)`: `length` genes, each drawn from the stream. -/
def Chromosome.ofLength (len : ℕ) (s : RandStream) : Chromosome × RandStream :=
  let r := randGenes len s
  (⟨r.1⟩, r.2)

/-- The crossover loop of `spawnWith`: for indices `i, i+1, ..., i+k-1`,
when the position also exists in the non-dominant parent, draw one random
number and overwrite the child's gene with the non-dominant parent's gene
if the draw exceeds 0.5 (the draw is consumed only in that case, matching
the short-circuit `i < nondom.length && Math.random() > 0.5`). -/
def spawnGo (nondom : List ℕ) : List ℕ → RandStream → ℕ → ℕ → List ℕ × RandStream
  | child, s, _, 0 => (child, s)
  | child, s, i, k + 1 =>
    if i < nondom.length then
      let child' := if s.headD 0 > 1 / 2 then child.set i (nondom.getD i 0 % 4294967296) else child
      spawnGo nondom child' s.tail (i + 1) k
    else spawnGo nondom child s (i + 1) k

/-- `spawnWith(other)`: the longer parent is dominant (`this` on ties,
because the source tests `other.length > this.length`); the child starts as
a copy of the dominant parent and each overlapping position is overwritten
from the non-dominant parent when its coin fires. -/
def Chromosome.spawnWith (c other : Chromosome) (s : RandStream) : Chromosome × RandStream :=
  let dom := if other.genes.length > c.genes.length then other else c
  let nondom := if other.genes.length > c.genes.length then c else other
  let child := dom.copy
  let res := spawnGo nondom.genes child.genes s 0 child.genes.length
  (⟨res.1⟩, res.2)

/-- `diversityWith(other)`: extend the shorter gene array with the 32-bit
complements of the longer one's tail, XOR element-wise, count set bits and
divide by `longer.length * 32`.  With `longer.length = 0` the JS division
is `0 / 0 = NaN`, modelled as `none`. -/
def Chromosome.diversityWith (c other : Chromosome) : Option ℚ :=
  let longer := if c.genes.length > other.genes.length then c.genes else other.genes
  let shorter := if c.genes.length > other.genes.length then other.genes else c.genes
  let extendedShorter := (List.range longer.length).map
    (fun i => if i < shorter.length then shorter.getD i 0 % 4294967296 else inv32 (longer.getD i 0))
  let xored := (List.range longer.length).map
    (fun i => xor32 (longer.getD i 0) (extendedShorter.getD i 0))
  if longer.length = 0 then none
  else some ((countOnes xored : ℚ) / (longer.length * 32))

/-- The mutation attempt loop: `n` attempts, each drawing a gate value and,
when it is `< prob`, drawing a gene index and bit index and flipping that
bit.  An out-of-range gene index (empty array) reads as 0 and the write is
a no-op, as for a `Uint32Array`; the JS shift `1 << idxBit` masks its
count to 5 bits. -/
def mutateLoop : List ℕ → ℚ → ℕ → RandStream → List ℕ × RandStream
  | genes, _, 0, s => (genes, s)
  | genes, prob, n + 1, s =>
    if s.headD 0 < prob then
      let s1 := s.tail
      let idxGene := (⌊s1.headD 0 * genes.length⌋).toNat
      let idxBit := (⌊s1.tail.headD 0 * 32⌋).toNat
      mutateLoop (genes.set idxGene (xor32 (genes.getD idxGene 0) (1 <<< (idxBit % 32))))
        prob n s1.tail.tail
    else mutateLoop genes prob n s.tail

/-- `mutate(mutationProb, additionProb)`: for `mutationProb >= 1.0` the
integer part gives the attempt count and the fractional part (1.0 when it
is exactly 0) gates every attempt; otherwise one attempt gated by
`mutationProb`.  Afterwards, with one more draw `< additionProb`, a freshly
drawn gene is appended. -/
def Chromosome.mutate (c : Chromosome) (mutationProb additionProb : ℚ) (s : RandStream) :
    Chromosome × RandStream :=
  let numMutations : ℕ := if mutationProb ≥ 1 then (⌊mutationProb⌋).toNat else 1
  let prob : ℚ :=
    if mutationProb ≥ 1 then
      if mutationProb - (⌊mutationProb⌋ : ℚ) = 0 then 1 else mutationProb - (⌊mutationProb⌋ : ℚ)
    else mutationProb
  let res := mutateLoop c.genes prob numMutations s
  let r := res.2.headD 0
  let s2 := res.2.tail
  if r < additionProb then
    (⟨res.1 ++ [(⌊s2.headD 0 * 4294967295⌋).toNat % 4294967296]⟩, s2.tail)
  else (⟨res.1⟩, s2)

/-- The mutation loop specialised to the case where the gate always passes
(the run of `mutate` on an integer probability with in-range draws): every
attempt consumes its gate draw and then unconditionally flips the drawn
bit of the drawn gene. -/
def guaranteedFlips : List ℕ → ℕ → RandStream → List ℕ × RandStream
  | genes, 0, s => (genes, s)
  | genes, k + 1, s =>
    let s1 := s.tail
    let idxGene := (⌊s1.headD 0 * genes.length⌋).toNat
    let idxBit := (⌊s1.tail.headD 0 * 32⌋).toNat
    guaranteedFlips (genes.set idxGene (xor32 (genes.getD idxGene 0) (1 <<< (idxBit % 32))))
      k s1.tail.tail

/-- A `Genome`: its chromosome list and the cached `shape` array. -/
structure Genome where
  chromosomes : List Chromosome
  shape : List ℕ
deriving DecidableEq

/-- The chromosome list built by the `Genome` constructor, one random
chromosome per requested length. -/
def genomeChromosomes : List ℕ → RandStream → List Chromosome × RandStream
  | [], s => ([], s)
  | len :: rest, s =>
    let c := Chromosome.ofLength len s
    let t := genomeChromosomes rest c.2
    (c.1 :: t.1, t.2)

/-- `new Genome(lengths)`: `shape` is a copy of `lengths` and each entry
yields one randomly seeded chromosome. -/
def Genome.ofLengths (lengths : List ℕ) (s : RandStream) : Genome × RandStream :=
  let r := genomeChromosomes lengths s
  (⟨r.1, lengths⟩, r.2)

/-- `copy()`: deep copies of the chromosomes, `shape` recomputed from the
copies' actual lengths. -/
def Genome.copy (g : Genome) : Genome :=
  ⟨g.chromosomes.map Chromosome.copy, g.chromosomes.map (fun c => c.genes.length)⟩

/-- `numGenes`: the sum of all chromosome lengths. -/
def Genome.numGenes (g : Genome) : ℕ :=
  (g.chromosomes.map (fun c => c.genes.length)).sum

/-- The accumulation loop of `Genome.diversityWith`: pairwise chromosome
diversities summed over the length of the shorter list; a `NaN` summand
(`none`) poisons the total exactly as in JS. -/
def divTotalLoop : List Chromosome → List Chromosome → Option ℚ
  | [], _ => some 0
  | _ :: _, [] => some 0
  | c :: t1, d :: t2 =>
    match c.diversityWith d, divTotalLoop t1 t2 with
    | some x, some y => some (x + y)
    | _, _ => none

/-- `Genome.diversityWith`: the summed pairwise diversities divided by the
shorter genome's chromosome count; `0 / 0 = NaN` (two empty genomes) and a
`NaN` summand both yield `none`. -/
def Genome.diversityWith (g other : Genome) : Option ℚ :=
  let shorter := if g.chromosomes.length < other.chromosomes.length
    then g.chromosomes else other.chromosomes
  let longer := if g.chromosomes.length < other.chromosomes.length
    then other.chromosomes else g.chromosomes
  match divTotalLoop shorter longer with
  | none => none
  | some t => if shorter.length = 0 then none else some (t / shorter.length)

/-- The loop of `Genome.spawnWith`: the receiver's chromosome at index `i`
is processed only when `i < other.chromosomes.length` (iterations beyond
the shorter list do nothing and consume no randomness, so the loop is
equivalent to this recursion over the paired prefixes); each produced
child chromosome is the pair's spawn, mutated in place. -/
def spawnChromosomes : List Chromosome → List Chromosome → ℚ → ℚ → RandStream →
    List Chromosome × RandStream
  | [], _, _, _, s => ([], s)
  | _ :: _, [], _, _, s => ([], s)
  | c :: t1, d :: t2, mp, ap, s =>
    let sp := c.spawnWith d s
    let m := sp.1.mutate mp ap sp.2
    let rest := spawnChromosomes t1 t2 mp ap m.2
    (m.1 :: rest.1, rest.2)

/-- `newShape[i] = childLengths[i]` for each produced child, starting from
a copy of the receiver's `shape` (stale entries beyond the produced
children are left in place, as in the source). -/
def setShape : List ℕ → ℕ → List ℕ → List ℕ
  | shape, _, [] => shape
  | shape, i, l :: ls => setShape (shape.set i l) (i + 1) ls

/-- `Genome.spawnWith(other, mutationProbability, additionProbability)`:
spawn-and-mutate each chromosome pair present in both parents, and update
the copied `shape` at those indices with the children's actual lengths. -/
def Genome.spawnWith (g other : Genome) (mutationProbability additionProbability : ℚ)
    (s : RandStream) : Genome × RandStream :=
  let r := spawnChromosomes g.chromosomes other.chromosomes
    mutationProbability additionProbability s
  (⟨r.1, setShape g.shape 0 (r.1.map (fun c => c.genes.length))⟩, r.2)

/-
Heap model.  The value-level definitions above capture what each operation
computes; to settle the frame claims we additionally model which JS array
each statement writes to.  Every chromosome object owns one heap slot
holding its current genes array (reassigning `this.genes`, as gene addition
does, updates the same slot); the temporary arrays allocated by
`diversityWith` get fresh slots of their own.  A genome is the list of its
chromosomes' slots (its `shape` array holds plain numbers and is copied by
value, so it needs no slot).
-/

/-- The heap: slot index ↦ current contents of that `Uint32Array`. -/
abbrev Heap := List (List ℕ)

/-- Read a slot (a dangling slot reads as an empty array; all theorems
assume in-range slots). -/
def hread (H : Heap) (p : ℕ) : List ℕ := H.getD p []

/-- Overwrite a slot. -/
def hwrite (H : Heap) (p : ℕ) (v : List ℕ) : Heap := H.set p v

/-- Allocate a fresh slot holding `v` and return its index. -/
def halloc (H : Heap) (v : List ℕ) : Heap × ℕ := (H ++ [v], H.length)

/-- `copy()` in the heap model: a fresh slot with a duplicate of the genes. -/
def copyH (H : Heap) (p : ℕ) : Heap × ℕ := halloc H (hread H p)

/-- The crossover loop of `spawnWith` in the heap model: all writes target
the child's slot `q`. -/
def spawnGoH : Heap → ℕ → ℕ → RandStream → ℕ → ℕ → Heap × RandStream
  | H, _, _, s, _, 0 => (H, s)
  | H, q, pnd, s, i, k + 1 =>
    if i < (hread H pnd).length then
      let H' := if s.headD 0 > 1 / 2
        then hwrite H q ((hread H q).set i ((hread H pnd).getD i 0 % 4294967296))
        else H
      spawnGoH H' q pnd s.tail (i + 1) k
    else spawnGoH H q pnd s (i + 1) k

/-- `spawnWith` in the heap model: copy the dominant parent into a fresh
slot and run the crossover loop on that slot; the result is `(heap, child
slot, remaining stream)`. -/
def spawnWithH (H : Heap) (pa pb : ℕ) (s : RandStream) : Heap × ℕ × RandStream :=
  let domP := if (hread H pb).length > (hread H pa).length then pb else pa
  let nondomP := if (hread H pb).length > (hread H pa).length then pa else pb
  let a := copyH H domP
  let r := spawnGoH a.1 a.2 nondomP s 0 (hread a.1 a.2).length
  (r.1, a.2, r.2)

/-- The mutation attempt loop in the heap model: all writes target slot `p`. -/
def mutateLoopH : Heap → ℕ → ℚ → ℕ → RandStream → Heap × RandStream
  | H, _, _, 0, s => (H, s)
  | H, p, prob, n + 1, s =>
    if s.headD 0 < prob then
      let s1 := s.tail
      let g := hread H p
      let idxGene := (⌊s1.headD 0 * g.length⌋).toNat
      let idxBit := (⌊s1.tail.headD 0 * 32⌋).toNat
      mutateLoopH (hwrite H p (g.set idxGene (xor32 (g.getD idxGene 0) (1 <<< (idxBit % 32)))))
        p prob n s1.tail.tail
    else mutateLoopH H p prob n s.tail

/-- `mutate` in the heap model: bit flips write slot `p` in place; gene
addition builds the extended array and repoints `this.genes`, i.e. replaces
the contents of slot `p`. -/
def mutateH (H : Heap) (p : ℕ) (mutationProb additionProb : ℚ) (s : RandStream) :
    Heap × RandStream :=
  let numMutations : ℕ := if mutationProb ≥ 1 then (⌊mutationProb⌋).toNat else 1
  let prob : ℚ :=
    if mutationProb ≥ 1 then
      if mutationProb - (⌊mutationProb⌋ : ℚ) = 0 then 1 else mutationProb - (⌊mutationProb⌋ : ℚ)
    else mutationProb
  let res := mutateLoopH H p prob numMutations s
  let r := res.2.headD 0
  let s2 := res.2.tail
  if r < additionProb then
    (hwrite res.1 p (hread res.1 p ++ [(⌊s2.headD 0 * 4294967295⌋).toNat % 4294967296]), s2.tail)
  else (res.1, s2)

/-- `diversityWith` in the heap model: the two temporaries
(`extendedShorter`, zero-initialised then filled, and `xored`) are fresh
slots; those are the only writes the method performs. -/
def diversityWithH (H : Heap) (pa pb : ℕ) : Heap × Option ℚ :=
  let longer := if (hread H pa).length > (hread H pb).length then hread H pa else hread H pb
  let shorter := if (hread H pa).length > (hread H pb).length then hread H pb else hread H pa
  let e := halloc H (List.replicate longer.length 0)
  let H1 := hwrite e.1 e.2 ((List.range longer.length).map
    (fun i => if i < shorter.length then shorter.getD i 0 % 4294967296 else inv32 (longer.getD i 0)))
  let x := halloc H1 (List.replicate longer.length 0)
  let H2 := hwrite x.1 x.2 ((List.range longer.length).map
    (fun i => xor32 (longer.getD i 0) ((hread H1 e.2).getD i 0)))
  (H2, if longer.length = 0 then none
    else some ((countOnes (hread H2 x.2) : ℚ) / (longer.length * 32)))

/-- `Genome.spawnWith` in the heap model: one fresh child slot per
chromosome pair, spawned then mutated; parents' slots are only read. -/
def genomeSpawnWithH : Heap → List ℕ → List ℕ → ℚ → ℚ → RandStream → Heap × List ℕ × RandStream
  | H, [], _, _, _, s => (H, [], s)
  | H, _ :: _, [], _, _, s => (H, [], s)
  | H, p1 :: t1, p2 :: t2, mp, ap, s =>
    let a := spawnWithH H p1 p2 s
    let b := mutateH a.1 a.2.1 mp ap a.2.2
    let rest := genomeSpawnWithH b.1 t1 t2 mp ap b.2
    (rest.1, a.2.1 :: rest.2.1, rest.2.2)

/-- The accumulation loop of `Genome.diversityWith` in the heap model. -/
def divTotalLoopH : Heap → List ℕ → List ℕ → Heap × Option ℚ
  | H, [], _ => (H, some 0)
  | H, _ :: _, [] => (H, some 0)
  | H, p :: t1, q :: t2 =>
    let d := diversityWithH H p q
    let r := divTotalLoopH d.1 t1 t2
    (r.1, match d.2, r.2 with | some x, some y => some (x + y) | _, _ => none)

/-- `Genome.diversityWith` in the heap model. -/
def genomeDiversityWithH (H : Heap) (l1 l2 : List ℕ) : Heap × Option ℚ :=
  let shorter := if l1.length < l2.length then l1 else l2
  let longer := if l1.length < l2.length then l2 else l1
  let r := divTotalLoopH H shorter longer
  (r.1, match r.2 with
    | none => none
    | some t => if shorter.length = 0 then none else some (t / shorter.length))

/-
Theorems.
-/

/-- C2 (code_bug): evaluating the code at the failing input — two genomes
with zero chromosomes, and two zero-length chromosomes — shows both
diversity computations return the JS `NaN` of `0 / 0` (modelled `none`)
instead of signalling an explicit error as the claim requires. -/
theorem diversityWith_empty_nan :
    Genome.diversityWith ⟨[], []⟩ ⟨[], []⟩ = none ∧
    Chromosome.diversityWith ⟨[]⟩ ⟨[]⟩ = none := by
  constructor <;> rfl

/-- C3 (code_bug): evaluating `spawnWith` at the failing input — a
two-chromosome receiver bred with a one-chromosome partner — produces a
child with one chromosome but a two-entry `shape`, violating the claimed
one-entry-per-chromosome invariant (the receiver's stale trailing `shape`
entry survives). -/
theorem genome_spawnWith_stale_shape :
    (Genome.spawnWith ⟨[⟨[]⟩, ⟨[]⟩], [0, 0]⟩ ⟨[⟨[]⟩], [0]⟩ 0 0 []).1.chromosomes.length = 1 ∧
    (Genome.spawnWith ⟨[⟨[]⟩, ⟨[]⟩], [0, 0]⟩ ⟨[⟨[]⟩], [0]⟩ 0 0 []).1.shape = [0, 0] := by
  constructor <;> rfl

/-- C6 counterexample: a zero-length chromosome compared with itself does
not give diversity 0 — the division is `0 / 0 = NaN` (modelled `none`). -/
theorem diversityWith_self_empty_cex :
    Chromosome.diversityWith ⟨[]⟩ ⟨[]⟩ ≠ some 0 := by
  intro h
  exact Option.noConfusion h

/-- C1 counterexample: with mutation probability `7/2` (three "guaranteed"
flips according to the claim) and every draw equal to `1/2`, no attempt
fires — each gate test `1/2 < 1/2` fails — so the single gene is unchanged.
Three single-bit XORs can never compose to the identity (their combined
mask has odd popcount), so the claimed three guaranteed flips would have
changed the gene. -/
theorem mutate_seven_halves_no_flip_cex :
    (Chromosome.mutate ⟨[0]⟩ (7 / 2) 0 [1 / 2, 1 / 2, 1 / 2, 1 / 2]).1 = ⟨[0]⟩ := by
  norm_num [Chromosome.mutate, mutateLoop]

/-- C4 counterexample: two chromosomes of equal length 1 with distinct
genes, and a draw of 0 so the coin does not select the non-dominant
parent.  The claim says the right-hand operand's gene `4294967295` seeds
the child and is kept; the code keeps the receiver's gene `0`. -/
theorem spawnWith_tie_cex :
    (Chromosome.spawnWith ⟨[0]⟩ ⟨[4294967295]⟩ [0]).1.genes ≠ [4294967295] ∧
    (Chromosome.spawnWith ⟨[0]⟩ ⟨[4294967295]⟩ [0]).1.genes = [0] := by
  norm_num [Chromosome.spawnWith, spawnGo, Chromosome.copy]

/-
Supporting lemmas.
-/

theorem headD_zero_cases (l : List ℚ) : l.headD 0 = 0 ∨ l.headD 0 ∈ l := by
  cases l with
  | nil => exact Or.inl rfl
  | cons a t => exact Or.inr (by simp)

theorem getD_tail_q (l : List ℚ) (n : ℕ) : l.tail.getD n 0 = l.getD (n + 1) 0 := by
  cases l <;> simp

theorem getD_set_ne_nat (l : List ℕ) (m n a : ℕ) (h : m ≠ n) :
    (l.set m a).getD n 0 = l.getD n 0 := by
  rw [List.getD_eq_getElem?_getD, List.getD_eq_getElem?_getD, List.getElem?_set_ne h]

theorem getD_set_self_nat (l : List ℕ) (n a : ℕ) (h : n < l.length) :
    (l.set n a).getD n 0 = a := by
  have h' : n < (l.set n a).length := by simpa using h
  rw [List.getD_eq_getElem _ _ h']
  exact List.getElem_set_self h'

theorem getD_range_map (f : ℕ → ℕ) (n i : ℕ) (h : i < n) :
    ((List.range n).map f).getD i 0 = f i := by
  have h' : i < ((List.range n).map f).length := by simpa using h
  rw [List.getD_eq_getElem _ _ h']
  simp

theorem xor32_self_mod (g : ℕ) : xor32 g (g % 4294967296) = 0 := by
  unfold xor32
  rw [Nat.mod_mod_of_dvd _ dvd_rfl, Nat.xor_self]

theorem countBitsLoop_zero : ∀ k : ℕ, countBitsLoop 0 k = 0 := by
  intro k
  induction k with
  | zero => rfl
  | succ k ih => simpa [countBitsLoop] using ih

theorem countBitsLoop_le (n : ℤ) (k : ℕ) : countBitsLoop n k ≤ k := by
  induction k generalizing n with
  | zero => exact Nat.le_refl 0
  | succ k ih =>
    have h := ih (n / 2)
    simp only [countBitsLoop]
    split
    · omega
    · omega

theorem countBitsLoop_natCast (k : ℕ) : ∀ m : ℕ, countBitsLoop (m : ℤ) k = popcountN m k := by
  induction k with
  | zero => intro m; rfl
  | succ k ih =>
    intro m
    have h1 : (m : ℤ) / 2 = ((m / 2 : ℕ) : ℤ) := by omega
    show (if (m : ℤ) % 2 = 1 then 1 else 0) + countBitsLoop ((m : ℤ) / 2) k
        = m % 2 + popcountN (m / 2) k
    rw [h1, ih (m / 2)]
    rcases Nat.mod_two_eq_zero_or_one m with h | h
    · rw [if_neg (by omega), h]
    · rw [if_pos (by omega), h]

theorem countBitsLoop_sub_pow (k : ℕ) :
    ∀ m : ℕ, countBitsLoop ((m : ℤ) - 2 ^ k) k = popcountN m k := by
  induction k with
  | zero => intro m; rfl
  | succ k ih =>
    intro m
    show (if ((m : ℤ) - 2 ^ (k + 1)) % 2 = 1 then 1 else 0) +
        countBitsLoop (((m : ℤ) - 2 ^ (k + 1)) / 2) k = m % 2 + popcountN (m / 2) k
    rw [pow_succ]
    have h1 : ((m : ℤ) - 2 ^ k * 2) / 2 = ((m / 2 : ℕ) : ℤ) - 2 ^ k := by omega
    rw [h1, ih (m / 2)]
    rcases Nat.mod_two_eq_zero_or_one m with h | h
    · rw [if_neg (by omega), h]
    · rw [if_pos (by omega), h]

theorem countBitsLoop_toInt32 (v : ℕ) (hv : v < 4294967296) :
    countBitsLoop (toInt32 v) 32 = popcountN v 32 := by
  unfold toInt32
  rw [Nat.mod_eq_of_lt hv]
  by_cases h : v < 2147483648
  · rw [if_pos h]
    exact countBitsLoop_natCast 32 v
  · rw [if_neg h]
    have h32 : ((4294967296 : ℤ)) = 2 ^ 32 := by norm_num
    rw [h32]
    exact countBitsLoop_sub_pow 32 v

theorem countOnes_le (arr : List ℕ) : countOnes arr ≤ arr.length * 32 := by
  induction arr with
  | nil => simp [countOnes]
  | cons a t ih =>
    have h1 : countBitsLoop (toInt32 a) 32 ≤ 32 := countBitsLoop_le _ _
    simp only [countOnes, List.map_cons, List.sum_cons, List.length_cons] at ih ⊢
    omega

theorem countOnes_map_zero (n : ℕ) : countOnes ((List.range n).map (fun _ => 0)) = 0 := by
  unfold countOnes
  rw [List.map_map]
  apply List.sum_eq_zero
  intro x hx
  rw [List.mem_map] at hx
  obtain ⟨i, _, rfl⟩ := hx
  show countBitsLoop (toInt32 0) 32 = 0
  have ht : toInt32 0 = 0 := rfl
  rw [ht]
  exact countBitsLoop_zero 32

theorem xored_self_eq_zero_map (l : List ℕ) :
    ((List.range l.length).map (fun i => xor32 (l.getD i 0)
      (((List.range l.length).map
        (fun i => if i < l.length then l.getD i 0 % 4294967296 else inv32 (l.getD i 0))).getD i 0)))
    = (List.range l.length).map (fun _ => 0) := by
  apply List.map_congr_left
  intro i hi
  have hi' := List.mem_range.mp hi
  rw [getD_range_map _ _ _ hi', if_pos hi', xor32_self_mod]

/-- C6 (amended): a chromosome with at least one gene has zero diversity
with itself — every XOR is of a gene with its own low 32 bits, so the set
bit count is 0 and the ratio is `0 / (length * 32) = 0`.  (For the empty
chromosome the division is `0 / 0 = NaN`, see the counterexample.) -/
theorem diversityWith_self_zero (a : Chromosome) (h : a.genes ≠ []) :
    a.diversityWith a = some 0 := by
  have hn : a.genes.length ≠ 0 := fun hh => h (List.length_eq_zero.mp hh)
  simp only [Chromosome.diversityWith, lt_irrefl, gt_iff_lt, if_neg, ite_self]
  rw [xored_self_eq_zero_map, countOnes_map_zero, if_neg hn]
  norm_num

/-- C6 witness. -/
theorem diversityWith_self_zero_witness :
    Chromosome.diversityWith ⟨[5, 7]⟩ ⟨[5, 7]⟩ = some 0 :=
  diversityWith_self_zero ⟨[5, 7]⟩ (by decide)

/-- C7 (confirmed): the bit-count loop computes the exact population count
of any 32-bit value, and consequently the diversity of two non-empty
chromosomes is a rational in `[0, 1]` (the XOR array has `longer.length`
entries of at most 32 set bits each). -/
theorem diversityWith_bounds :
    (∀ v, v < 4294967296 → countBitsLoop (toInt32 v) 32 = popcountN v 32)
    ∧ ∀ (a b : Chromosome), a.genes ≠ [] → b.genes ≠ [] →
        ∃ q : ℚ, a.diversityWith b = some q ∧ 0 ≤ q ∧ q ≤ 1 := by
  constructor
  · exact fun v hv => countBitsLoop_toInt32 v hv
  · intro a b ha hb
    by_cases hab : a.genes.length > b.genes.length
    · have hlen : a.genes.length ≠ 0 := fun hh => ha (List.length_eq_zero.mp hh)
      have hpos : (0 : ℚ) < (a.genes.length : ℚ) * 32 := by
        have := Nat.pos_of_ne_zero hlen
        have h0 : (0 : ℚ) < (a.genes.length : ℚ) := by exact_mod_cast this
        nlinarith
      simp only [Chromosome.diversityWith, if_pos hab]
      rw [if_neg hlen]
      refine ⟨_, rfl, ?_, ?_⟩
      · positivity
      · rw [div_le_one hpos]
        have hle := countOnes_le ((List.range a.genes.length).map (fun i =>
          xor32 (a.genes.getD i 0)
            (((List.range a.genes.length).map (fun i => if i < b.genes.length
              then b.genes.getD i 0 % 4294967296 else inv32 (a.genes.getD i 0))).getD i 0)))
        simp only [List.length_map, List.length_range] at hle
        exact_mod_cast hle
    · have hlen : b.genes.length ≠ 0 := fun hh => hb (List.length_eq_zero.mp hh)
      have hpos : (0 : ℚ) < (b.genes.length : ℚ) * 32 := by
        have := Nat.pos_of_ne_zero hlen
        have h0 : (0 : ℚ) < (b.genes.length : ℚ) := by exact_mod_cast this
        nlinarith
      simp only [Chromosome.diversityWith, if_neg hab]
      rw [if_neg hlen]
      refine ⟨_, rfl, ?_, ?_⟩
      · positivity
      · rw [div_le_one hpos]
        have hle := countOnes_le ((List.range b.genes.length).map (fun i =>
          xor32 (b.genes.getD i 0)
            (((List.range b.genes.length).map (fun i => if i < a.genes.length
              then a.genes.getD i 0 % 4294967296 else inv32 (b.genes.getD i 0))).getD i 0)))
        simp only [List.length_map, List.length_range] at hle
        exact_mod_cast hle

/-- C7 witness. -/
theorem diversityWith_bounds_witness :
    countBitsLoop (toInt32 4294967295) 32 = popcountN 4294967295 32 ∧
    ∃ q : ℚ, Chromosome.diversityWith ⟨[0]⟩ ⟨[4294967295]⟩ = some q ∧ 0 ≤ q ∧ q ≤ 1 :=
  ⟨diversityWith_bounds.1 4294967295 (by decide),
   diversityWith_bounds.2 ⟨[0]⟩ ⟨[4294967295]⟩ (by decide) (by decide)⟩

theorem mutateLoop_stream_subset (p : ℚ) :
    ∀ (n : ℕ) (g : List ℕ) (s : RandStream), ∀ r ∈ (mutateLoop g p n s).2, r ∈ s := by
  intro n
  induction n with
  | zero => intro g s r hr; exact hr
  | succ n ih =>
    intro g s r hr
    simp only [mutateLoop] at hr
    split at hr
    · exact List.tail_subset _ (List.tail_subset _ (List.tail_subset _ (ih _ _ _ hr)))
    · exact List.tail_subset _ (ih _ _ _ hr)

theorem mutateLoop_nil_genes (p : ℚ) :
    ∀ (n : ℕ) (s : RandStream), (mutateLoop [] p n s).1 = [] := by
  intro n
  induction n with
  | zero => intro s; rfl
  | succ n ih =>
    intro s
    simp only [mutateLoop, List.set_nil]
    split
    · exact ih _
    · exact ih _

/-- C10 (confirmed): `mutate(p, 0)` on a zero-length chromosome terminates
and leaves it empty for every probability `p ≥ 0`: a fired attempt reads
gene index `floor(r * 0) = 0`, whose out-of-range write is a no-op, and
the addition gate `r < 0` never fires for draws `≥ 0`. -/
theorem mutate_empty_chromosome (p : ℚ) (s : RandStream) (hp : 0 ≤ p)
    (hs : ∀ r ∈ s, 0 ≤ r) :
    (Chromosome.mutate ⟨[]⟩ p 0 s).1 = ⟨[]⟩ := by
  have h2 : ∀ (prob : ℚ) (n : ℕ), ¬ ((mutateLoop [] prob n s).2.headD 0 < 0) := by
    intro prob n
    rcases headD_zero_cases (mutateLoop [] prob n s).2 with h | h
    · rw [h]; exact lt_irrefl 0
    · exact not_lt.mpr (hs _ (mutateLoop_stream_subset prob n [] s _ h))
  simp only [Chromosome.mutate]
  rw [if_neg (h2 _ _)]
  rw [mutateLoop_nil_genes]

/-- C10 witness. -/
theorem mutate_empty_chromosome_witness :
    (Chromosome.mutate ⟨[]⟩ 2 0 [0, 0, 0, 0, 0, 0, 0]).1 = ⟨[]⟩ :=
  mutate_empty_chromosome 2 [0, 0, 0, 0, 0, 0, 0] (by norm_num) (by decide)

theorem spawnGo_length (nondom : List ℕ) :
    ∀ (k i : ℕ) (child : List ℕ) (s : RandStream),
      (spawnGo nondom child s i k).1.length = child.length := by
  intro k
  induction k with
  | zero => intros; rfl
  | succ k ih =>
    intro i child s
    simp only [spawnGo]
    split
    · rw [ih]
      split <;> simp
    · rw [ih]

theorem headD_getD_zero (l : List ℚ) : l.getD 0 0 = l.headD 0 := by
  cases l <;> simp

theorem spawnGo_getD (nondom : List ℕ) :
    ∀ (k i : ℕ) (child : List ℕ) (s : RandStream), nondom.length ≤ child.length →
      ∀ j, (spawnGo nondom child s i k).1.getD j 0 =
        if i ≤ j ∧ j < i + k ∧ j < nondom.length ∧ s.getD (j - i) 0 > 1 / 2
        then nondom.getD j 0 % 4294967296 else child.getD j 0 := by
  intro k
  induction k with
  | zero =>
    intro i child s _ j
    rw [if_neg (by rintro ⟨h1, h2, h3, h4⟩; omega)]
    rfl
  | succ k ih =>
    intro i child s hlen j
    simp only [spawnGo]
    by_cases hi : i < nondom.length
    · rw [if_pos hi]
      have hlen' : nondom.length ≤
          (if s.headD 0 > 1 / 2 then child.set i (nondom.getD i 0 % 4294967296) else child).length := by
        split <;> simpa using hlen
      rw [ih (i + 1) _ s.tail hlen' j]
      by_cases hj : j = i
      · have hsj : s.getD (j - i) 0 = s.headD 0 := by
          rw [hj, Nat.sub_self]
          exact headD_getD_zero s
        have hIHc : ¬ (i + 1 ≤ j ∧ j < i + 1 + k ∧ j < nondom.length ∧
            s.tail.getD (j - (i + 1)) 0 > 1 / 2) := by
          rintro ⟨h1, h2, h3, h4⟩; omega
        by_cases hcoin : s.headD 0 > 1 / 2
        · have hgc : i ≤ j ∧ j < i + (k + 1) ∧ j < nondom.length ∧ s.getD (j - i) 0 > 1 / 2 :=
            ⟨by omega, by omega, by omega, by rw [hsj]; exact hcoin⟩
          rw [if_neg hIHc, if_pos hgc, if_pos hcoin, hj]
          exact getD_set_self_nat child i _ (lt_of_lt_of_le hi hlen)
        · have hgc : ¬ (i ≤ j ∧ j < i + (k + 1) ∧ j < nondom.length ∧ s.getD (j - i) 0 > 1 / 2) := by
            rintro ⟨h1, h2, h3, h4⟩
            rw [hsj] at h4
            exact hcoin h4
          rw [if_neg hIHc, if_neg hgc, if_neg hcoin]
      · have hchild : (if s.headD 0 > 1 / 2 then child.set i (nondom.getD i 0 % 4294967296)
            else child).getD j 0 = child.getD j 0 := by
          split
          · exact getD_set_ne_nat child i j _ (by omega)
          · rfl
        by_cases hij : i + 1 ≤ j
        · have hst : s.tail.getD (j - (i + 1)) 0 = s.getD (j - i) 0 := by
            rw [getD_tail_q]
            congr 1
            omega
          by_cases hcond : i + 1 ≤ j ∧ j < i + 1 + k ∧ j < nondom.length ∧
              s.tail.getD (j - (i + 1)) 0 > 1 / 2
          · have hgc : i ≤ j ∧ j < i + (k + 1) ∧ j < nondom.length ∧ s.getD (j - i) 0 > 1 / 2 :=
              ⟨by omega, by omega, hcond.2.2.1, by rw [← hst]; exact hcond.2.2.2⟩
            rw [if_pos hcond, if_pos hgc]
          · have hgc : ¬ (i ≤ j ∧ j < i + (k + 1) ∧ j < nondom.length ∧
                s.getD (j - i) 0 > 1 / 2) := by
              rintro ⟨h1, h2, h3, h4⟩
              exact hcond ⟨by omega, by omega, h3, by rw [hst]; exact h4⟩
            rw [if_neg hcond, if_neg hgc, hchild]
        · have hcond : ¬ (i + 1 ≤ j ∧ j < i + 1 + k ∧ j < nondom.length ∧
              s.tail.getD (j - (i + 1)) 0 > 1 / 2) := by
            rintro ⟨h1, h2, h3, h4⟩; omega
          have hgc : ¬ (i ≤ j ∧ j < i + (k + 1) ∧ j < nondom.length ∧
              s.getD (j - i) 0 > 1 / 2) := by
            rintro ⟨h1, h2, h3, h4⟩; omega
          rw [if_neg hcond, if_neg hgc, hchild]
    · rw [if_neg hi]
      rw [ih (i + 1) child s hlen j]
      have hcond : ¬ (i + 1 ≤ j ∧ j < i + 1 + k ∧ j < nondom.length ∧
          s.getD (j - (i + 1)) 0 > 1 / 2) := by
        rintro ⟨h1, h2, h3, h4⟩; omega
      have hgc : ¬ (i ≤ j ∧ j < i + (k + 1) ∧ j < nondom.length ∧
          s.getD (j - i) 0 > 1 / 2) := by
        rintro ⟨h1, h2, h3, h4⟩; omega
      rw [if_neg hcond, if_neg hgc]

theorem getD_mem_of_lt (l : List ℕ) (i : ℕ) (h : i < l.length) : l.getD i 0 ∈ l := by
  rw [List.getD_eq_getElem _ _ h]
  exact List.getElem_mem h

/-- C8 (confirmed): the child of `a.spawnWith(b)` has length
`max(a.length, b.length)`; positions beyond the overlap always carry the
dominant (longer-or-tie, i.e. `b` exactly when it is strictly longer)
parent's gene, and each overlapping position carries the non-dominant
parent's gene exactly when its coin draw exceeds 1/2, and the dominant
parent's gene otherwise.  Nothing is appended or dropped. -/
theorem spawnWith_child_structure (a b : Chromosome) (s : RandStream)
    (ha : a.valid) (hb : b.valid) :
    (a.spawnWith b s).1.genes.length = max a.genes.length b.genes.length
    ∧ (∀ i, min a.genes.length b.genes.length ≤ i →
        (a.spawnWith b s).1.genes.getD i 0 =
          (if b.genes.length > a.genes.length then b else a).genes.getD i 0)
    ∧ (∀ i, i < min a.genes.length b.genes.length →
        (a.spawnWith b s).1.genes.getD i 0 =
          if s.getD i 0 > 1 / 2
          then (if b.genes.length > a.genes.length then a else b).genes.getD i 0
          else (if b.genes.length > a.genes.length then b else a).genes.getD i 0) := by
  by_cases hab : b.genes.length > a.genes.length
  · simp only [Chromosome.spawnWith, Chromosome.copy, if_pos hab]
    have hlen : a.genes.length ≤ b.genes.length := le_of_lt hab
    refine ⟨?_, ?_, ?_⟩
    · rw [spawnGo_length]
      omega
    · intro i hmin
      rw [spawnGo_getD a.genes (b.genes.length) 0 b.genes s hlen i]
      rw [if_neg (by rintro ⟨h1, h2, h3, h4⟩; omega)]
    · intro i hmin
      have hia : i < a.genes.length := by omega
      have hib : i < b.genes.length := by omega
      have hsub : i - 0 = i := rfl
      by_cases hcoin : s.getD i 0 > 1 / 2
      · rw [spawnGo_getD a.genes (b.genes.length) 0 b.genes s hlen i,
          if_pos ⟨Nat.zero_le i, by omega, hia, by rw [hsub]; exact hcoin⟩, if_pos hcoin]
        exact Nat.mod_eq_of_lt (ha _ (getD_mem_of_lt a.genes i hia))
      · rw [spawnGo_getD a.genes (b.genes.length) 0 b.genes s hlen i,
          if_neg (by rintro ⟨h1, h2, h3, h4⟩; rw [hsub] at h4; exact hcoin h4), if_neg hcoin]
  · simp only [Chromosome.spawnWith, Chromosome.copy, if_neg hab]
    have hlen : b.genes.length ≤ a.genes.length := by omega
    refine ⟨?_, ?_, ?_⟩
    · rw [spawnGo_length]
      omega
    · intro i hmin
      rw [spawnGo_getD b.genes (a.genes.length) 0 a.genes s hlen i]
      rw [if_neg (by rintro ⟨h1, h2, h3, h4⟩; omega)]
    · intro i hmin
      have hia : i < a.genes.length := by omega
      have hib : i < b.genes.length := by omega
      have hsub : i - 0 = i := rfl
      by_cases hcoin : s.getD i 0 > 1 / 2
      · rw [spawnGo_getD b.genes (a.genes.length) 0 a.genes s hlen i,
          if_pos ⟨Nat.zero_le i, by omega, hib, by rw [hsub]; exact hcoin⟩, if_pos hcoin]
        exact Nat.mod_eq_of_lt (hb _ (getD_mem_of_lt b.genes i hib))
      · rw [spawnGo_getD b.genes (a.genes.length) 0 a.genes s hlen i,
          if_neg (by rintro ⟨h1, h2, h3, h4⟩; rw [hsub] at h4; exact hcoin h4), if_neg hcoin]

/-- C8 witness. -/
theorem spawnWith_child_structure_witness :
    (Chromosome.spawnWith ⟨[1, 2]⟩ ⟨[3]⟩ [1]).1.genes.length = 2 ∧
    (Chromosome.spawnWith ⟨[1, 2]⟩ ⟨[3]⟩ [1]).1.genes.getD 1 0 =
      (Chromosome.mk [1, 2]).genes.getD 1 0 ∧
    (Chromosome.spawnWith ⟨[1, 2]⟩ ⟨[3]⟩ [1]).1.genes.getD 0 0 =
      (if ([1] : RandStream).getD 0 0 > 1 / 2
      then (Chromosome.mk [3]).genes.getD 0 0 else (Chromosome.mk [1, 2]).genes.getD 0 0) :=
  ⟨(spawnWith_child_structure ⟨[1, 2]⟩ ⟨[3]⟩ [1] (by decide) (by decide)).1,
   (spawnWith_child_structure ⟨[1, 2]⟩ ⟨[3]⟩ [1] (by decide) (by decide)).2.1 1 (by decide),
   (spawnWith_child_structure ⟨[1, 2]⟩ ⟨[3]⟩ [1] (by decide) (by decide)).2.2 0 (by decide)⟩

/-- C4 (corrected as amended): on equal lengths the receiver (the
left-hand operand) is the dominant parent — its genes seed the child and
survive whenever the coin does not select the non-dominant parent — while
for unequal lengths the longer chromosome is always dominant: the child
has its length and inherits its genes at every position the shorter parent
lacks. -/
theorem spawnWith_dominance (a b : Chromosome) (s : RandStream) :
    (a.genes.length = b.genes.length →
      ∀ i, i < a.genes.length → ¬ (s.getD i 0 > 1 / 2) →
        (a.spawnWith b s).1.genes.getD i 0 = a.genes.getD i 0)
    ∧ (b.genes.length ≤ a.genes.length →
      (a.spawnWith b s).1.genes.length = a.genes.length ∧
      ∀ i, b.genes.length ≤ i →
        (a.spawnWith b s).1.genes.getD i 0 = a.genes.getD i 0)
    ∧ (a.genes.length < b.genes.length →
      (a.spawnWith b s).1.genes.length = b.genes.length ∧
      ∀ i, a.genes.length ≤ i →
        (a.spawnWith b s).1.genes.getD i 0 = b.genes.getD i 0) := by
  refine ⟨?_, ?_, ?_⟩
  · intro heq i hi hcoin
    have hab : ¬ (b.genes.length > a.genes.length) := by omega
    simp only [Chromosome.spawnWith, Chromosome.copy, if_neg hab]
    rw [spawnGo_getD b.genes (a.genes.length) 0 a.genes s (by omega) i]
    have hsub : i - 0 = i := rfl
    rw [if_neg (by rintro ⟨h1, h2, h3, h4⟩; rw [hsub] at h4; exact hcoin h4)]
  · intro hble
    have hab : ¬ (b.genes.length > a.genes.length) := by omega
    simp only [Chromosome.spawnWith, Chromosome.copy, if_neg hab]
    refine ⟨by rw [spawnGo_length], ?_⟩
    intro i hi
    rw [spawnGo_getD b.genes (a.genes.length) 0 a.genes s (by omega) i]
    rw [if_neg (by rintro ⟨h1, h2, h3, h4⟩; omega)]
  · intro hlt
    have hab : b.genes.length > a.genes.length := hlt
    simp only [Chromosome.spawnWith, Chromosome.copy, if_pos hab]
    refine ⟨by rw [spawnGo_length], ?_⟩
    intro i hi
    rw [spawnGo_getD a.genes (b.genes.length) 0 b.genes s (by omega) i]
    rw [if_neg (by rintro ⟨h1, h2, h3, h4⟩; omega)]

/-- C4 witness. -/
theorem spawnWith_dominance_witness :
    (Chromosome.spawnWith ⟨[1]⟩ ⟨[2]⟩ [0]).1.genes.getD 0 0 = (Chromosome.mk [1]).genes.getD 0 0 ∧
    (Chromosome.spawnWith ⟨[1, 2]⟩ ⟨[3]⟩ []).1.genes.length = 2 ∧
    (Chromosome.spawnWith ⟨[4]⟩ ⟨[5, 6]⟩ []).1.genes.getD 1 0 =
      (Chromosome.mk [5, 6]).genes.getD 1 0 :=
  ⟨(spawnWith_dominance ⟨[1]⟩ ⟨[2]⟩ [0]).1 rfl 0 (by norm_num) (by norm_num),
   ((spawnWith_dominance ⟨[1, 2]⟩ ⟨[3]⟩ []).2.1 (by norm_num)).1,
   ((spawnWith_dominance ⟨[4]⟩ ⟨[5, 6]⟩ []).2.2 (by norm_num)).2 1 (by norm_num)⟩

theorem guaranteedFlips_length :
    ∀ (k : ℕ) (genes : List ℕ) (s : RandStream),
      (guaranteedFlips genes k s).1.length = genes.length := by
  intro k
  induction k with
  | zero => intros; rfl
  | succ k ih =>
    intro genes s
    simp only [guaranteedFlips]
    rw [ih]
    simp

theorem mutateLoop_prob_one :
    ∀ (k : ℕ) (genes : List ℕ) (s : RandStream), (∀ r ∈ s, r < 1) →
      mutateLoop genes 1 k s = guaranteedFlips genes k s := by
  intro k
  induction k with
  | zero => intros; rfl
  | succ k ih =>
    intro genes s hs
    have hgate : s.headD 0 < 1 := by
      rcases headD_zero_cases s with h | h
      · rw [h]; norm_num
      · exact hs _ h
    simp only [mutateLoop, guaranteedFlips]
    rw [if_pos hgate]
    exact ih _ _ (fun r hr => hs r (List.tail_subset _ (List.tail_subset _ (List.tail_subset _ hr))))

theorem mutateLoop_no_fire :
    ∀ (n : ℕ) (s : RandStream) (genes : List ℕ) (prob : ℚ), n ≤ s.length →
      (∀ r ∈ s, prob ≤ r) → (mutateLoop genes prob n s).1 = genes := by
  intro n
  induction n with
  | zero => intros; rfl
  | succ n ih =>
    intro s genes prob hn hs
    cases s with
    | nil => simp at hn
    | cons a t =>
      have hgate : ¬ ((a :: t).headD 0 < prob) := not_lt.mpr (hs a (by simp))
      simp only [mutateLoop]
      rw [if_neg hgate]
      exact ih t genes prob (by simpa using hn) (fun r hr => hs r (List.mem_cons_of_mem a hr))

/-- C1 (corrected as amended): for an integer probability `p = k ≥ 1` and
in-range draws, `mutate(k, 0)` performs exactly `k` unconditional
single-bit flips (the run coincides with `guaranteedFlips`, whose attempts
have no gate) and never changes the gene count; for `p ≥ 1` with non-zero
fractional part each of the `floor(p)` attempts is gated by its own draw
against `p - floor(p)` — there is no extra attempt, and when every draw is
at least the fractional part no bit is flipped at all. -/
theorem mutate_attempt_semantics :
    (∀ (k : ℕ) (c : Chromosome) (s : RandStream), 1 ≤ k →
      (∀ r ∈ s, 0 ≤ r ∧ r < 1) →
      (Chromosome.mutate c (k : ℚ) 0 s).1.genes = (guaranteedFlips c.genes k s).1 ∧
      (Chromosome.mutate c (k : ℚ) 0 s).1.genes.length = c.genes.length)
    ∧ (∀ (p : ℚ) (c : Chromosome) (s : RandStream), 1 ≤ p → p - (⌊p⌋ : ℚ) ≠ 0 →
      (⌊p⌋).toNat ≤ s.length →
      (∀ r ∈ s, 0 ≤ r ∧ p - (⌊p⌋ : ℚ) ≤ r) →
      (Chromosome.mutate c p 0 s).1.genes = c.genes) := by
  constructor
  · intro k c s hk hs
    have hadd : ∀ (prob : ℚ) (n : ℕ) (g : List ℕ),
        ¬ ((mutateLoop g prob n s).2.headD 0 < 0) := by
      intro prob n g
      rcases headD_zero_cases (mutateLoop g prob n s).2 with h | h
      · rw [h]; exact lt_irrefl 0
      · exact not_lt.mpr ((hs _ (mutateLoop_stream_subset prob n g s _ h)).1)
    have hge : (k : ℚ) ≥ 1 := by exact_mod_cast hk
    have hfloor : ⌊(k : ℚ)⌋ = (k : ℤ) := Int.floor_natCast k
    have hfrac : (k : ℚ) - (⌊(k : ℚ)⌋ : ℚ) = 0 := by
      rw [hfloor]
      push_cast
      ring
    simp only [Chromosome.mutate]
    rw [if_pos hge, if_pos hge, if_pos hfrac, hfloor, Int.toNat_natCast]
    rw [if_neg (hadd _ _ _)]
    rw [mutateLoop_prob_one k c.genes s (fun r hr => (hs r hr).2)]
    exact ⟨rfl, guaranteedFlips_length k c.genes s⟩
  · intro p c s hp hfrac hlen hs
    have hadd : ∀ (prob : ℚ) (n : ℕ) (g : List ℕ),
        ¬ ((mutateLoop g prob n s).2.headD 0 < 0) := by
      intro prob n g
      rcases headD_zero_cases (mutateLoop g prob n s).2 with h | h
      · rw [h]; exact lt_irrefl 0
      · exact not_lt.mpr ((hs _ (mutateLoop_stream_subset prob n g s _ h)).1)
    have hge : p ≥ 1 := hp
    simp only [Chromosome.mutate]
    rw [if_pos hge, if_pos hge, if_neg hfrac]
    rw [if_neg (hadd _ _ _)]
    exact mutateLoop_no_fire _ s c.genes _ hlen (fun r hr => (hs r hr).2)

/-- C1 witness. -/
theorem mutate_attempt_semantics_witness :
    ((Chromosome.mutate ⟨[0]⟩ ((3 : ℕ) : ℚ) 0 [0, 0, 0, 0, 0, 0, 0, 0, 0, 0]).1.genes
        = (guaranteedFlips [0] 3 [0, 0, 0, 0, 0, 0, 0, 0, 0, 0]).1 ∧
      (Chromosome.mutate ⟨[0]⟩ ((3 : ℕ) : ℚ) 0 [0, 0, 0, 0, 0, 0, 0, 0, 0, 0]).1.genes.length = 1) ∧
    (Chromosome.mutate ⟨[5]⟩ (7 / 2) 0 [1 / 2, 1 / 2, 1 / 2, 1 / 2]).1.genes = [5] :=
  ⟨mutate_attempt_semantics.1 3 ⟨[0]⟩ [0, 0, 0, 0, 0, 0, 0, 0, 0, 0] (by norm_num)
      (by norm_num [List.forall_mem_cons]),
   mutate_attempt_semantics.2 (7 / 2) ⟨[5]⟩ [1 / 2, 1 / 2, 1 / 2, 1 / 2] (by norm_num)
      (by norm_num) (by norm_num) (by norm_num [List.forall_mem_cons])⟩

theorem spawnChromosomes_length :
    ∀ (l1 l2 : List Chromosome) (mp ap : ℚ) (s : RandStream),
      (spawnChromosomes l1 l2 mp ap s).1.length = min l1.length l2.length := by
  intro l1
  induction l1 with
  | nil => intro l2 mp ap s; simp [spawnChromosomes]
  | cons c t1 ih =>
    intro l2 mp ap s
    cases l2 with
    | nil => simp [spawnChromosomes]
    | cons d t2 =>
      simp only [spawnChromosomes, List.length_cons]
      rw [ih]
      omega

theorem spawnChromosomes_getD :
    ∀ (l1 l2 : List Chromosome) (mp ap : ℚ) (s : RandStream) (i : ℕ),
      i < l1.length → i < l2.length →
      ∃ t : RandStream, (spawnChromosomes l1 l2 mp ap s).1.getD i ⟨[]⟩ =
        (((l1.getD i ⟨[]⟩).spawnWith (l2.getD i ⟨[]⟩) t).1.mutate mp ap
          ((l1.getD i ⟨[]⟩).spawnWith (l2.getD i ⟨[]⟩) t).2).1 := by
  intro l1
  induction l1 with
  | nil => intro l2 mp ap s i h1 h2; simp at h1
  | cons c t1 ih =>
    intro l2 mp ap s i h1 h2
    cases l2 with
    | nil => simp at h2
    | cons d t2 =>
      cases i with
      | zero =>
        refine ⟨s, ?_⟩
        simp only [spawnChromosomes, List.getD_cons_zero]
      | succ i =>
        obtain ⟨t, ht⟩ := ih t2 mp ap
          ((c.spawnWith d s).1.mutate mp ap (c.spawnWith d s).2).2 i
          (by simpa using h1) (by simpa using h2)
        refine ⟨t, ?_⟩
        simp only [spawnChromosomes, List.getD_cons_succ]
        exact ht

/-- C5 (confirmed): the child genome of `g1.spawnWith(g2)` has exactly
`min(C1, C2)` chromosomes; each index present in both parents yields the
pair's spawn-then-mutate result (for the stream state reached at that
index), and indices present only in the receiver are skipped entirely. -/
theorem genome_spawnWith_min_count (g1 g2 : Genome) (mp ap : ℚ) (s : RandStream) :
    (Genome.spawnWith g1 g2 mp ap s).1.chromosomes.length
        = min g1.chromosomes.length g2.chromosomes.length
    ∧ ∀ i, i < g1.chromosomes.length → i < g2.chromosomes.length →
        ∃ t : RandStream,
          (Genome.spawnWith g1 g2 mp ap s).1.chromosomes.getD i ⟨[]⟩ =
            (((g1.chromosomes.getD i ⟨[]⟩).spawnWith (g2.chromosomes.getD i ⟨[]⟩) t).1.mutate mp ap
              ((g1.chromosomes.getD i ⟨[]⟩).spawnWith (g2.chromosomes.getD i ⟨[]⟩) t).2).1 := by
  constructor
  · simp only [Genome.spawnWith]
    exact spawnChromosomes_length _ _ _ _ _
  · intro i h1 h2
    simp only [Genome.spawnWith]
    exact spawnChromosomes_getD _ _ _ _ _ i h1 h2

/-- C5 witness. -/
theorem genome_spawnWith_min_count_witness :
    (Genome.spawnWith ⟨[⟨[]⟩, ⟨[]⟩], [0, 0]⟩ ⟨[⟨[]⟩], [0]⟩ 0 0 []).1.chromosomes.length = 1 ∧
    ∃ t : RandStream,
      (Genome.spawnWith ⟨[⟨[]⟩, ⟨[]⟩], [0, 0]⟩ ⟨[⟨[]⟩], [0]⟩ 0 0 []).1.chromosomes.getD 0 ⟨[]⟩ =
        ((Chromosome.spawnWith ⟨[]⟩ ⟨[]⟩ t).1.mutate 0 0 (Chromosome.spawnWith ⟨[]⟩ ⟨[]⟩ t).2).1 :=
  ⟨(genome_spawnWith_min_count ⟨[⟨[]⟩, ⟨[]⟩], [0, 0]⟩ ⟨[⟨[]⟩], [0]⟩ 0 0 []).1,
   (genome_spawnWith_min_count ⟨[⟨[]⟩, ⟨[]⟩], [0, 0]⟩ ⟨[⟨[]⟩], [0]⟩ 0 0 []).2 0
     (by decide) (by decide)⟩

theorem getD_set_ne_gen {α : Type} (l : List α) (d : α) (m n : ℕ) (a : α) (h : m ≠ n) :
    (l.set m a).getD n d = l.getD n d := by
  rw [List.getD_eq_getElem?_getD, List.getD_eq_getElem?_getD, List.getElem?_set_ne h]

theorem hwrite_length (H : Heap) (q : ℕ) (v : List ℕ) : (hwrite H q v).length = H.length := by
  simp [hwrite]

theorem hread_hwrite_ne (H : Heap) (q : ℕ) (v : List ℕ) (p : ℕ) (h : q ≠ p) :
    hread (hwrite H q v) p = hread H p := by
  unfold hread hwrite
  exact getD_set_ne_gen H [] q p v h

theorem hread_append (H : Heap) (v : List ℕ) (p : ℕ) (h : p < H.length) :
    hread (H ++ [v]) p = hread H p := by
  unfold hread
  exact List.getD_append H [v] [] p h

theorem spawnGoH_pres :
    ∀ (k i : ℕ) (H : Heap) (q pnd : ℕ) (s : RandStream),
      (spawnGoH H q pnd s i k).1.length = H.length ∧
      ∀ p, p ≠ q → hread (spawnGoH H q pnd s i k).1 p = hread H p := by
  intro k
  induction k with
  | zero => intro i H q pnd s; exact ⟨rfl, fun p _ => rfl⟩
  | succ k ih =>
    intro i H q pnd s
    simp only [spawnGoH]
    by_cases hi : i < (hread H pnd).length
    · rw [if_pos hi]
      have hlen' : (if s.headD 0 > 1 / 2
          then hwrite H q ((hread H q).set i ((hread H pnd).getD i 0 % 4294967296))
          else H).length = H.length := by
        split
        · exact hwrite_length H q _
        · rfl
      constructor
      · rw [(ih (i + 1) _ q pnd s.tail).1]
        exact hlen'
      · intro p hp
        rw [(ih (i + 1) _ q pnd s.tail).2 p hp]
        split
        · exact hread_hwrite_ne H q _ p (fun h => hp h.symm)
        · rfl
    · rw [if_neg hi]
      exact ih (i + 1) H q pnd s

theorem mutateLoopH_pres :
    ∀ (n : ℕ) (H : Heap) (p : ℕ) (prob : ℚ) (s : RandStream),
      (mutateLoopH H p prob n s).1.length = H.length ∧
      ∀ q, q ≠ p → hread (mutateLoopH H p prob n s).1 q = hread H q := by
  intro n
  induction n with
  | zero => intro H p prob s; exact ⟨rfl, fun q _ => rfl⟩
  | succ n ih =>
    intro H p prob s
    simp only [mutateLoopH]
    split
    · constructor
      · rw [(ih _ p prob _).1]
        exact hwrite_length H p _
      · intro q hq
        rw [(ih _ p prob _).2 q hq]
        exact hread_hwrite_ne H p _ q (fun h => hq h.symm)
    · exact ih H p prob _

theorem mutateH_pres_aux (H : Heap) (p : ℕ) (ap : ℚ) (s : RandStream) (prob : ℚ) (n : ℕ) :
    ((if (mutateLoopH H p prob n s).2.headD 0 < ap then
        (hwrite (mutateLoopH H p prob n s).1 p
            (hread (mutateLoopH H p prob n s).1 p ++
              [(⌊((mutateLoopH H p prob n s).2.tail).headD 0 * 4294967295⌋).toNat % 4294967296]),
          (mutateLoopH H p prob n s).2.tail.tail)
      else ((mutateLoopH H p prob n s).1, (mutateLoopH H p prob n s).2.tail)) :
        Heap × RandStream).1.length = H.length
    ∧ ∀ q, q ≠ p →
      hread ((if (mutateLoopH H p prob n s).2.headD 0 < ap then
        (hwrite (mutateLoopH H p prob n s).1 p
            (hread (mutateLoopH H p prob n s).1 p ++
              [(⌊((mutateLoopH H p prob n s).2.tail).headD 0 * 4294967295⌋).toNat % 4294967296]),
          (mutateLoopH H p prob n s).2.tail.tail)
      else ((mutateLoopH H p prob n s).1, (mutateLoopH H p prob n s).2.tail)) :
        Heap × RandStream).1 q = hread H q := by
  split
  · constructor
    · show (hwrite (mutateLoopH H p prob n s).1 p _).length = H.length
      rw [hwrite_length]
      exact (mutateLoopH_pres n H p prob s).1
    · intro q hq
      show hread (hwrite (mutateLoopH H p prob n s).1 p _) q = hread H q
      rw [hread_hwrite_ne _ p _ q (fun h => hq h.symm)]
      exact (mutateLoopH_pres n H p prob s).2 q hq
  · exact ⟨(mutateLoopH_pres n H p prob s).1,
      fun q hq => (mutateLoopH_pres n H p prob s).2 q hq⟩

theorem mutateH_pres (H : Heap) (p : ℕ) (mp ap : ℚ) (s : RandStream) :
    (mutateH H p mp ap s).1.length = H.length ∧
    ∀ q, q ≠ p → hread (mutateH H p mp ap s).1 q = hread H q := by
  simp only [mutateH]
  exact mutateH_pres_aux H p ap s _ _

theorem spawnWithH_facts (H : Heap) (pa pb : ℕ) (s : RandStream) :
    (spawnWithH H pa pb s).1.length = H.length + 1 ∧
    (spawnWithH H pa pb s).2.1 = H.length ∧
    ∀ p, p < H.length → hread (spawnWithH H pa pb s).1 p = hread H p := by
  simp only [spawnWithH, copyH, halloc]
  refine ⟨?_, by trivial, ?_⟩
  · rw [(spawnGoH_pres _ _ _ _ _ _).1]
    simp
  · intro p hp
    rw [(spawnGoH_pres _ _ _ _ _ _).2 p (by omega)]
    exact hread_append H _ p hp

theorem genomeSpawnWithH_pres :
    ∀ (l1 l2 : List ℕ) (H : Heap) (mp ap : ℚ) (s : RandStream),
      H.length ≤ (genomeSpawnWithH H l1 l2 mp ap s).1.length ∧
      ∀ p, p < H.length → hread (genomeSpawnWithH H l1 l2 mp ap s).1 p = hread H p := by
  intro l1
  induction l1 with
  | nil =>
    intro l2 H mp ap s
    exact ⟨le_refl _, fun p _ => rfl⟩
  | cons p1 t1 ih =>
    intro l2 H mp ap s
    cases l2 with
    | nil => exact ⟨le_refl _, fun p _ => rfl⟩
    | cons p2 t2 =>
      simp only [genomeSpawnWithH]
      have hA := spawnWithH_facts H p1 p2 s
      have hB := mutateH_pres (spawnWithH H p1 p2 s).1 (spawnWithH H p1 p2 s).2.1 mp ap
        (spawnWithH H p1 p2 s).2.2
      have hR := ih t2
        (mutateH (spawnWithH H p1 p2 s).1 (spawnWithH H p1 p2 s).2.1 mp ap
          (spawnWithH H p1 p2 s).2.2).1 mp ap
        (mutateH (spawnWithH H p1 p2 s).1 (spawnWithH H p1 p2 s).2.1 mp ap
          (spawnWithH H p1 p2 s).2.2).2
      constructor
      · have h1 := hA.1
        have h2 := hB.1
        have h3 := hR.1
        omega
      · intro p hp
        rw [hR.2 p (by rw [hB.1, hA.1]; omega)]
        rw [hB.2 p (by rw [hA.2.1]; omega)]
        exact hA.2.2 p hp

theorem diversityWithH_facts (H : Heap) (pa pb : ℕ) :
    (diversityWithH H pa pb).1.length = H.length + 2 ∧
    ∀ p, p < H.length → hread (diversityWithH H pa pb).1 p = hread H p := by
  simp only [diversityWithH, halloc]
  constructor
  · rw [hwrite_length, List.length_append, hwrite_length, List.length_append]
    simp only [List.length_singleton]
  · intro p hp
    rw [hread_hwrite_ne _ _ _ p (by
      rw [hwrite_length, List.length_append]
      simp only [List.length_singleton]
      omega)]
    rw [hread_append _ _ p (by
      rw [hwrite_length, List.length_append]
      simp only [List.length_singleton]
      omega)]
    rw [hread_hwrite_ne _ _ _ p (by omega)]
    exact hread_append H _ p hp

theorem divTotalLoopH_pres :
    ∀ (l1 l2 : List ℕ) (H : Heap),
      H.length ≤ (divTotalLoopH H l1 l2).1.length ∧
      ∀ p, p < H.length → hread (divTotalLoopH H l1 l2).1 p = hread H p := by
  intro l1
  induction l1 with
  | nil => intro l2 H; exact ⟨le_refl _, fun p _ => rfl⟩
  | cons q1 t1 ih =>
    intro l2 H
    cases l2 with
    | nil => exact ⟨le_refl _, fun p _ => rfl⟩
    | cons q2 t2 =>
      simp only [divTotalLoopH]
      have hD := diversityWithH_facts H q1 q2
      have hR := ih t2 (diversityWithH H q1 q2).1
      constructor
      · have h1 := hD.1
        have h2 := hR.1
        omega
      · intro p hp
        rw [hR.2 p (by rw [hD.1]; omega)]
        exact hD.2 p hp

theorem genomeDiversityWithH_pres (H : Heap) (l1 l2 : List ℕ) :
    ∀ p, p < H.length → hread (genomeDiversityWithH H l1 l2).1 p = hread H p := by
  intro p hp
  simp only [genomeDiversityWithH]
  exact (divTotalLoopH_pres _ _ H).2 p hp

/-- C9 (confirmed): in the heap model — where each chromosome owns the slot
holding its genes array — `Chromosome.spawnWith`, `Chromosome.diversityWith`,
`Genome.spawnWith` and `Genome.diversityWith` leave every pre-existing slot
(in particular every chromosome of both operands) bit-for-bit unchanged:
crossover writes only the freshly copied child slot, diversity writes only
its freshly allocated temporaries, and the post-crossover mutation writes
only the fresh child slot. -/
theorem operations_preserve_parents :
    (∀ (H : Heap) (pa pb : ℕ) (s : RandStream), pa < H.length → pb < H.length →
      hread (spawnWithH H pa pb s).1 pa = hread H pa ∧
      hread (spawnWithH H pa pb s).1 pb = hread H pb)
    ∧ (∀ (H : Heap) (pa pb : ℕ), pa < H.length → pb < H.length →
      hread (diversityWithH H pa pb).1 pa = hread H pa ∧
      hread (diversityWithH H pa pb).1 pb = hread H pb)
    ∧ (∀ (H : Heap) (l1 l2 : List ℕ) (mp ap : ℚ) (s : RandStream) (p : ℕ), p < H.length →
      hread (genomeSpawnWithH H l1 l2 mp ap s).1 p = hread H p)
    ∧ (∀ (H : Heap) (l1 l2 : List ℕ) (p : ℕ), p < H.length →
      hread (genomeDiversityWithH H l1 l2).1 p = hread H p) :=
  ⟨fun H pa pb s hpa hpb =>
    ⟨(spawnWithH_facts H pa pb s).2.2 pa hpa, (spawnWithH_facts H pa pb s).2.2 pb hpb⟩,
   fun H pa pb hpa hpb =>
    ⟨(diversityWithH_facts H pa pb).2 pa hpa, (diversityWithH_facts H pa pb).2 pb hpb⟩,
   fun H l1 l2 mp ap s p hp => (genomeSpawnWithH_pres l1 l2 H mp ap s).2 p hp,
   fun H l1 l2 p hp => genomeDiversityWithH_pres H l1 l2 p hp⟩

/-- C9 witness. -/
theorem operations_preserve_parents_witness :
    (hread (spawnWithH [[1, 2], [3]] 0 1 [0]).1 0 = [1, 2] ∧
      hread (spawnWithH [[1, 2], [3]] 0 1 [0]).1 1 = [3]) ∧
    (hread (diversityWithH [[1, 2], [3]] 0 1).1 0 = [1, 2] ∧
      hread (diversityWithH [[1, 2], [3]] 0 1).1 1 = [3]) ∧
    hread (genomeSpawnWithH [[1, 2], [3]] [0] [1] 0 0 [0]).1 0 = [1, 2] ∧
    hread (genomeDiversityWithH [[1, 2], [3]] [0] [1]).1 0 = [1, 2] :=
  ⟨⟨(operations_preserve_parents.1 [[1, 2], [3]] 0 1 [0] (by decide) (by decide)).1,
    (operations_preserve_parents.1 [[1, 2], [3]] 0 1 [0] (by decide) (by decide)).2⟩,
   ⟨(operations_preserve_parents.2.1 [[1, 2], [3]] 0 1 (by decide) (by decide)).1,
    (operations_preserve_parents.2.1 [[1, 2], [3]] 0 1 (by decide) (by decide)).2⟩,
   operations_preserve_parents.2.2.1 [[1, 2], [3]] [0] [1] 0 0 [0] 0 (by decide),
   operations_preserve_parents.2.2.2 [[1, 2], [3]] [0] [1] 0 (by decide)⟩
